import Mathlib

/-!
A shallow embedding of the netplan editor library
(src/netplan_editor/netplan_editor.py and
src/netplan_editor/update_netplan_cmd.py), together with theorems
settling the specification claims about it.

Modelling conventions:
* YAML/JSON values parsed by the external codecs are modelled by the
  inductive type `Value` (mappings keep insertion order as association
  lists).
* dpath-style slash paths are modelled as lists of segments: a
  wildcard-free path is a `List String`, a glob is a `List Seg` where a
  segment is either a literal or the single-segment wildcard star.
  The empty list corresponds to no valid slash path, so theorems about
  path operations assume nonempty paths where it matters.
* Python exceptions are modelled by the `PyErr` type; fallible
  operations return `Except PyErr`.  The source raises the single class
  NetplanEditorException with different messages; those raise sites are
  kept apart as distinct `PyErr` constructors.
* Python string ordering (used by max() and sorted()) is code-point
  lexicographic; it is modelled by `pyStrLt` on the character lists.
-/

/-- One value of a parsed YAML document: a mapping (ordered key/value
association list), a sequence, or a scalar (string, integer, boolean or
null).  Floats are outside the model; none of the verified operations
involve them. -/
inductive Value where
  | str : String → Value
  | int : Int → Value
  | bool : Bool → Value
  | null : Value
  | map : List (String × Value) → Value
  | seq : List Value → Value

mutual

/-- Deep structural equality of values, as Python's == computes it on
the nested dict/list/scalar trees returned by yaml.load. -/
def Value.beq : Value → Value → Bool
  | .str a, .str b => a == b
  | .int a, .int b => a == b
  | .bool a, .bool b => a == b
  | .null, .null => true
  | .map a, .map b => Value.beqFields a b
  | .seq a, .seq b => Value.beqElems a b
  | _, _ => false

/-- Structural equality of mapping entry lists. -/
def Value.beqFields : List (String × Value) → List (String × Value) → Bool
  | [], [] => true
  | (k, v) :: xs, (l, w) :: ys => k == l && Value.beq v w && Value.beqFields xs ys
  | _, _ => false

/-- Structural equality of sequence element lists. -/
def Value.beqElems : List Value → List Value → Bool
  | [], [] => true
  | v :: xs, w :: ys => Value.beq v w && Value.beqElems xs ys
  | _, _ => false

end

/-- Python string comparison is lexicographic on code points; this is
the strict-less-than on character lists. -/
def charListLt : List Char → List Char → Bool
  | [], [] => false
  | [], _ :: _ => true
  | _ :: _, [] => false
  | a :: as, b :: bs =>
    if a.toNat < b.toNat then true
    else if b.toNat < a.toNat then false
    else charListLt as bs

/-- Python's `a < b` on strings (used by max() and sorted() in the
source). -/
def pyStrLt (a b : String) : Bool := charListLt a.data b.data

/-- One segment of a dpath glob: a literal key, or the single-segment
wildcard star.  This models the glob sublanguage the editor actually
passes to dpath (literal section names plus full-segment wildcards). -/
inductive Seg where
  | lit : String → Seg
  | star : Seg
deriving DecidableEq

/-- The text of a segment as it appears in the slash-path string. -/
def segString : Seg → String
  | .lit s => s
  | .star => "*"

/-- Whether a glob segment matches a concrete key. -/
def segMatchStr (seg : Seg) (key : String) : Bool :=
  match seg with
  | .lit s => s == key
  | .star => true

/-- Key under which dpath addresses the i-th element of a sequence. -/
def natToKey (i : Nat) : String := toString i

/-- Model of dpath.util.get on a wildcard-free path: walk mapping keys
(and sequence indices given as numeric strings); `none` corresponds to
the KeyError dpath raises when the path is absent.  Walking into a
scalar finds nothing, as in dpath. -/
def dgetOpt : Value → List String → Option Value
  | v, [] => some v
  | Value.map es, k :: rest =>
    match es.lookup k with
    | some child => dgetOpt child rest
    | none => none
  | Value.seq xs, k :: rest =>
    match k.toNat? with
    | some i =>
      match xs[i]? with
      | some child => dgetOpt child rest
      | none => none
    | none => none
  | _, _ :: _ => none

/-- Model of dpath.util.set on a wildcard-free path: replace the value
at the path if it exists, leave the document unchanged otherwise (dpath
set mutates only existing matches and never creates keys).  Mapping key
order is preserved. -/
def dset : Value → List String → Value → Value
  | doc, [], _ => doc
  | Value.map es, [k], v =>
    Value.map (es.map (fun e => if e.1 == k then (e.1, v) else e))
  | Value.map es, k :: rest, v =>
    Value.map (es.map (fun e => if e.1 == k then (e.1, dset e.2 rest v) else e))
  | Value.seq xs, [k], v =>
    (match k.toNat? with
     | some i => Value.seq (xs.set i v)
     | none => Value.seq xs)
  | Value.seq xs, k :: rest, v =>
    (match k.toNat? with
     | some i =>
       match xs[i]? with
       | some c => Value.seq (xs.set i (dset c rest v))
       | none => Value.seq xs
     | none => Value.seq xs)
  | doc, _ :: _, _ => doc

/-- Model of dpath.util.search with yielded=True: every concrete path
(with its value) reachable by substituting each wildcard by an existing
key, in depth-first order following each container's natural iteration
order (mapping insertion order, sequence index order).  No match gives
the empty list, never an error. -/
def dsearch : Value → List Seg → List (List String × Value)
  | v, [] => [([], v)]
  | Value.map es, seg :: rest =>
    es.flatMap (fun e =>
      if segMatchStr seg e.1 then
        (dsearch e.2 rest).map (fun m => (e.1 :: m.1, m.2))
      else [])
  | Value.seq xs, seg :: rest =>
    xs.enum.flatMap (fun ie =>
      if segMatchStr seg (natToKey ie.1) then
        (dsearch ie.2 rest).map (fun m => (natToKey ie.1 :: m.1, m.2))
      else [])
  | _, _ :: _ => []

/-- Python exceptions reachable in the embedded code.  The source's
NetplanEditorException raise sites are distinguished by constructor
(they differ only in message text in Python). -/
inductive PyErr where
  | keyError
  | nameError
  | typeError
  | valueError
  | indexError
  | netplanExFileNotFound (f : String)
  | netplanExAlreadyExists (newPath : List Seg) (f : String)
  | netplanExNoConfig
deriving DecidableEq

/-- Model of dpath.util.get on a glob path: KeyError when there is no
match, ValueError when the glob matches more than one leaf, otherwise
the single matched value. -/
def dgetGlob (doc : Value) (glob : List Seg) : Except PyErr Value :=
  match dsearch doc glob with
  | [] => Except.error PyErr.keyError
  | [m] => Except.ok m.2
  | _ => Except.error PyErr.valueError

/-- Model of dpath.util.new on a mapping path: replace the value when
the full path already exists, otherwise create it, building intermediate
mappings as needed; new keys are appended at the end (dict insertion
order).  Numeric segments into sequences (where dpath would build
lists) are outside the model; the editor only creates mapping keys. -/
def dnew : Value → List String → Value → Value
  | doc, [], _ => doc
  | Value.map es, [k], v =>
    if es.any (fun e => e.1 == k) then
      Value.map (es.map (fun e => if e.1 == k then (e.1, v) else e))
    else Value.map (es ++ [(k, v)])
  | Value.map es, k :: rest, v =>
    if es.any (fun e => e.1 == k) then
      Value.map (es.map (fun e => if e.1 == k then (e.1, dnew e.2 rest v) else e))
    else Value.map (es ++ [(k, dnew (Value.map []) rest v)])
  | doc, _ :: _, _ => doc

/-- Model of dpath.util.delete on a glob: remove every match from its
parent container and return the new document with the number of removed
entries.  (Sequence element deletion is outside the model; the editor
deletes mapping keys.) -/
def ddel : Value → List Seg → Value × Nat
  | doc, [] => (doc, 0)
  | Value.map es, [seg] =>
    let kept := es.filter (fun e => !(segMatchStr seg e.1))
    (Value.map kept, es.length - kept.length)
  | Value.map es, seg :: rest =>
    let results := es.map (fun e =>
      if segMatchStr seg e.1 then
        let r := ddel e.2 rest
        ((e.1, r.1), r.2)
      else ((e.1, e.2), 0))
    (Value.map (results.map Prod.fst), (results.map Prod.snd).sum)
  | v, _ => (v, 0)

/-- JSON whitespace. -/
def isWs (c : Char) : Bool := c == ' ' || c == '\t' || c == '\n' || c == '\r'

/-- Drop leading JSON whitespace. -/
def skipWs : List Char → List Char
  | [] => []
  | c :: cs => if isWs c then skipWs cs else c :: cs

/-- Decimal digit value of a character, if any. -/
def digitVal (c : Char) : Option Nat :=
  if 48 ≤ c.toNat && c.toNat ≤ 57 then some (c.toNat - 48) else none

/-- Split a leading run of decimal digits off a character list. -/
def takeDigits : List Char → List Nat × List Char
  | [] => ([], [])
  | c :: cs =>
    match digitVal c with
    | some d =>
      let r := takeDigits cs
      (d :: r.1, r.2)
    | none => ([], c :: cs)

/-- Combine decimal digits into a natural number. -/
def digitsToNat (ds : List Nat) : Nat := ds.foldl (fun acc d => 10 * acc + d) 0

/-- Parse a JSON integer literal (optional minus, no leading zeros).  A
following fraction or exponent marker makes the parse fail: the model
has no floats, so a float literal falls back to the raw-string value in
convertInputVal. -/
def parseJsonInt (cs : List Char) : Option (Int × List Char) :=
  let neg := match cs with | c :: _ => c == '-' | [] => false
  let body := if neg then cs.tail else cs
  let r := takeDigits body
  match r.1 with
  | [] => none
  | d :: ds =>
    if d == 0 && ds ≠ [] then none
    else
      match r.2 with
      | c :: _ =>
        if c == '.' || c == 'e' || c == 'E' then none
        else some (if neg then -(digitsToNat (d :: ds) : Int) else (digitsToNat (d :: ds) : Int), r.2)
      | [] => some (if neg then -(digitsToNat (d :: ds) : Int) else (digitsToNat (d :: ds) : Int), [])

/-- JSON string escape characters (the \uXXXX form is outside the
model: an input using it falls back to the raw-string value). -/
def escTable : List (Char × Char) :=
  [('"', '"'), ('\\', '\\'), ('/', '/'), ('n', '\n'), ('t', '\t'), ('r', '\r'),
   ('b', Char.ofNat 8), ('f', Char.ofNat 12)]

def escChar (c : Char) : Option Char := escTable.lookup c

/-- Consume a fixed keyword from the front of the input, if present. -/
def stripWord (w : List Char) (cs : List Char) : Option (List Char) :=
  match w, cs with
  | [], rest => some rest
  | a :: ws, c :: rest => if c == a then stripWord ws rest else none
  | _ :: _, [] => none

/-- Parse the remainder of a JSON string literal (after the opening
quote), returning the decoded characters and the rest of the input. -/
def jsonStrChars : Nat → List Char → Option (List Char × List Char)
  | 0, _ => none
  | _ + 1, [] => none
  | fuel + 1, c :: rest =>
    if c == '"' then some ([], rest)
    else if c == '\\' then
      match rest with
      | [] => none
      | e :: rest2 =>
        match escChar e with
        | some d =>
          match jsonStrChars fuel rest2 with
          | some (s, r) => some (d :: s, r)
          | none => none
        | none => none
    else if c.toNat < 32 then none
    else
      match jsonStrChars fuel rest with
      | some (s, r) => some (c :: s, r)
      | none => none

mutual

/-- Fuel-indexed recursive-descent parser for the JSON sublanguage
json.loads accepts on the editor's inputs: null, true, false, integers,
strings, arrays and objects.  Returns the parsed value and the
remaining input. -/
def jsonVal : Nat → List Char → Option (Value × List Char)
  | 0, _ => none
  | fuel + 1, cs =>
    let cs1 := skipWs cs
    match stripWord "null".data cs1 with
    | some rest => some (Value.null, rest)
    | none =>
    match stripWord "true".data cs1 with
    | some rest => some (Value.bool true, rest)
    | none =>
    match stripWord "false".data cs1 with
    | some rest => some (Value.bool false, rest)
    | none =>
    match cs1 with
    | '"' :: rest =>
      (match jsonStrChars (fuel + 1) rest with
       | some (s, r) => some (Value.str (String.mk s), r)
       | none => none)
    | '[' :: rest =>
      (match skipWs rest with
       | ']' :: rest2 => some (Value.seq [], rest2)
       | _ =>
         match jsonArrayItems fuel rest with
         | some (xs, r) => some (Value.seq xs, r)
         | none => none)
    | c :: rest =>
      if c == Char.ofNat 123 then
        (match skipWs rest with
         | d :: rest2 =>
           if d == Char.ofNat 125 then some (Value.map [], rest2)
           else
             match jsonObjItems fuel (d :: rest2) with
             | some (es, r) => some (Value.map es, r)
             | none => none
         | [] => none)
      else
        match parseJsonInt (c :: rest) with
        | some (n, r) => some (Value.int n, r)
        | none => none
    | [] => none

/-- Comma-separated JSON array items up to the closing bracket. -/
def jsonArrayItems : Nat → List Char → Option (List Value × List Char)
  | 0, _ => none
  | fuel + 1, cs =>
    match jsonVal fuel cs with
    | some (v, r) =>
      (match skipWs r with
       | ']' :: rest => some ([v], rest)
       | ',' :: rest =>
         (match jsonArrayItems fuel rest with
          | some (xs, r2) => some (v :: xs, r2)
          | none => none)
       | _ => none)
    | none => none

/-- Comma-separated JSON object entries up to the closing brace. -/
def jsonObjItems : Nat → List Char → Option (List (String × Value) × List Char)
  | 0, _ => none
  | fuel + 1, cs =>
    match skipWs cs with
    | '"' :: rest =>
      (match jsonStrChars (fuel + 1) rest with
       | some (k, r) =>
         (match skipWs r with
          | ':' :: rest2 =>
            (match jsonVal fuel rest2 with
             | some (v, r2) =>
               (match skipWs r2 with
                | c :: rest3 =>
                  if c == Char.ofNat 125 then some ([(String.mk k, v)], rest3)
                  else if c == ',' then
                    match jsonObjItems fuel rest3 with
                    | some (es, r3) => some ((String.mk k, v) :: es, r3)
                    | none => none
                  else none
                | [] => none)
             | none => none)
          | _ => none)
       | none => none)
    | _ => none

end

/-- Model of json.loads restricted to the grammar above: the whole
input (up to surrounding whitespace) must parse as one value. -/
def pyJsonLoads (s : String) : Option Value :=
  match jsonVal (s.length + 2) s.data with
  | some (v, rest) => if (skipWs rest).isEmpty then some v else none
  | none => none

/-- NetplanEditor._convert_input_val: try json.loads on the input; on a
parse failure leave the original input string unchanged. -/
def convertInputVal (s : String) : Value :=
  match pyJsonLoads s with
  | some v => v
  | none => Value.str s

/-- The in-memory state of a NetplanEditor object: the parsed conf
files keyed by filename in discovery (insertion) order, the baseline
snapshot netplan_orig, and the set of paths for which os.path.isfile
answers true. -/
structure NetplanEditor where
  files : List (String × Value)
  filesOrig : List (String × Value)
  disk : List String

/-- Structural equality of optional documents (Python == on the entries
of netplan and netplan_orig). -/
def optValBeq : Option Value → Option Value → Bool
  | some a, some b => Value.beq a b
  | none, none => true
  | _, _ => false

/-- NetplanEditor.__init__ after parsing: the conf files are stored in
the order they were discovered (os.listdir order for a directory scan —
the constructor does not sort them), the baseline snapshot is taken,
and an empty discovery set raises NetplanEditorException. -/
def mkEditor (confFiles : List (String × Value)) (disk : List String) :
    Except PyErr NetplanEditor :=
  if confFiles.isEmpty then Except.error PyErr.netplanExNoConfig
  else Except.ok { files := confFiles, filesOrig := confFiles, disk := disk }

/-- NetplanEditor.changed: deep structural inequality of a file's
current tree against its baseline snapshot.  (The source indexes both
dicts with the file name; the model compares the lookups, which agrees
with the source on every loaded file.) -/
def NetplanEditor.changed (st : NetplanEditor) (conf : String) : Bool :=
  !(optValBeq (st.files.lookup conf) (st.filesOrig.lookup conf))

/-- NetplanEditor.write: serialize every file whose tree changed
(returned as the list of written filenames — serialization itself is
the external yaml collaborator), skip unchanged files, then reset the
baseline snapshot to the current trees. -/
def NetplanEditor.write (st : NetplanEditor) : List String × NetplanEditor :=
  ((st.files.map Prod.fst).filter (fun conf => st.changed conf),
   { st with filesOrig := st.files })

/-- NetplanEditor.search_raw: run the dpath search over every loaded
file, files in storage (insertion) order outermost, tagging each match
with its filename. -/
def NetplanEditor.searchRaw (st : NetplanEditor) (glob : List Seg) :
    List (String × List String × Value) :=
  st.files.flatMap (fun e => (dsearch e.2 glob).map (fun m => (e.1, m.1, m.2)))

/-- NetplanEditor.search_params_all_interfaces: for each of the three
literal sections in order [ethernets, bridges, vlans], search the whole
overlay for network/[sec]/*/[key_glob] and concatenate the results
(sections outermost, then files, then natural match order). -/
def NetplanEditor.searchParamsAllInterfaces (st : NetplanEditor) (keyGlob : List Seg) :
    List (String × List String × Value) :=
  (["ethernets", "bridges", "vlans"]).flatMap
    (fun sec => st.searchRaw ([Seg.lit "network", Seg.lit sec, Seg.star] ++ keyGlob))

/-- NetplanEditor._match_1st_source_file: the first loaded file (in
storage order) whose tree contains the wildcard-free path, or None. -/
def NetplanEditor.matchFirstSourceFile (st : NetplanEditor) (path : List String) :
    Option String :=
  st.files.findSome? (fun e => if (dgetOpt e.2 path).isSome then some e.1 else none)

/-- NetplanEditor.get_val: return dpath.util.get of the first loaded
file containing the path; when no file contains it the function falls
through and returns None.  A stored YAML null is returned as that same
None, so the model's result type is a plain Value. -/
def NetplanEditor.getVal (st : NetplanEditor) (path : List String) : Value :=
  match st.files.findSome? (fun e => dgetOpt e.2 path) with
  | some v => v
  | none => Value.null

/-- Replace the document stored under a filename (in-place mutation of
self.netplan[conf] in the source); all other entries are untouched and
the key order is preserved. -/
def setDoc (files : List (String × Value)) (conf : String) (doc : Value) :
    List (String × Value) :=
  files.map (fun e => if e.1 == conf then (e.1, doc) else e)

/-- NetplanEditor.set_val: with a nonempty in_file, check it with
os.path.isfile and use it; otherwise pick the first file containing the
path.  If a file was picked, read the old value (dpath KeyError when
the path is absent from the chosen file), coerce the input, set it in
place and return True; if no file contains the path return False. -/
def NetplanEditor.setVal (st : NetplanEditor) (path : List String) (newVal : String)
    (inFile : String) : Except PyErr (Bool × NetplanEditor) := do
  let conf? ←
    if inFile ≠ "" then
      if inFile ∈ st.disk then pure (some inFile)
      else throw (PyErr.netplanExFileNotFound inFile)
    else
      pure (st.matchFirstSourceFile path)
  match conf? with
  | some conf =>
    match st.files.lookup conf with
    | none => throw PyErr.keyError
    | some doc =>
      match dgetOpt doc path with
      | none => throw PyErr.keyError
      | some _oldVal =>
        let converted := convertInputVal newVal
        pure (true, { st with files := setDoc st.files conf (dset doc path converted) })
  | none => pure (false, st)

/-- os.path.basename of the new path (text of its last segment; empty
for an empty path, as in Python). -/
def elementNameOf (p : List Seg) : String :=
  match p.getLast? with
  | some s => segString s
  | none => ""

/-- The entries of a mapping list whose first run of characters equals
the probe: Python substring containment on character lists. -/
def listLeadsWith (probe hay : List Char) : Bool :=
  match probe, hay with
  | [], _ => true
  | p :: ps, h :: hs => if p == h then listLeadsWith ps hs else false
  | _ :: _, [] => false

/-- Python substring containment (needle occurs contiguously in the
haystack). -/
def listHasSub (sub : List Char) : List Char → Bool
  | [] => listLeadsWith sub []
  | b :: bs => listLeadsWith sub (b :: bs) || listHasSub sub bs

/-- Python's `name in value`: key membership for a dict, element
equality for a list (a string equals only an equal string element),
substring containment for a string, TypeError for the remaining
scalars. -/
def pyContains (name : String) (v : Value) : Except PyErr Bool :=
  match v with
  | Value.map es => Except.ok (es.any (fun e => e.1 == name))
  | Value.seq xs =>
    Except.ok (xs.any (fun x => match x with | Value.str s => s == name | _ => false))
  | Value.str s => Except.ok (listHasSub name.data s.data)
  | _ => Except.error PyErr.typeError

/-- The duplicate scan of new_entry: walk the parent-path matches in
order and return the file of the first whose value contains the new
element name (propagating the TypeError `in` can raise). -/
def findDup (name : String) : List (String × List String × Value) → Except PyErr (Option String)
  | [] => Except.ok none
  | x :: rest => do
    let b ← pyContains name x.2.2
    if b then pure (some x.1) else findDup name rest

/-- Stable insertion into a descending-by-filename list: the new entry
goes in front of the first entry whose filename is not greater.  Used
to model Python's stable sorted(..., key=fst, reverse=True). -/
def insDescFst {α : Type} (e : String × α) : List (String × α) → List (String × α)
  | [] => [e]
  | x :: xs => if pyStrLt e.1 x.1 then x :: insDescFst e xs else e :: x :: xs

/-- Python sorted(entries, key=fst, reverse=True): stable descending
sort by filename. -/
def pySortedDescFst {α : Type} (l : List (String × α)) : List (String × α) :=
  l.foldr insDescFst []

/-- Python max() over a list of strings: ValueError signalled as none
on the empty list, otherwise the greatest element (first one on ties). -/
def pyMaxStr : List String → Option String
  | [] => none
  | x :: xs => some (xs.foldl (fun acc b => if pyStrLt acc b then b else acc) x)

/-- NetplanEditor.new_entry.  The parent-path matches are collected
over the whole overlay.  With a nonempty in_file the target file is
used directly (after the isfile check) and no duplicate check happens.
Otherwise, when the parent path matched anywhere, any match already
containing the element name aborts with the already-exists error, else
the file of the match with the greatest filename is chosen; when the
parent path matched nowhere, the greatest loaded filename is chosen.
The converted value is computed but the source passes the unconverted
new_val to dpath.util.new, so the raw string is what gets stored. -/
def NetplanEditor.newEntry (st : NetplanEditor) (newPath : List Seg) (newVal : String)
    (inFile : String) : Except PyErr NetplanEditor := do
  let basePath := newPath.dropLast
  let elementName := elementNameOf newPath
  let existingEntries := st.searchRaw basePath
  let confFile ←
    if inFile ≠ "" then
      if inFile ∈ st.disk then pure inFile
      else throw (PyErr.netplanExFileNotFound inFile)
    else if !existingEntries.isEmpty then
      match findDup elementName existingEntries with
      | Except.error e => throw e
      | Except.ok (some f) => throw (PyErr.netplanExAlreadyExists newPath f)
      | Except.ok none =>
        match pySortedDescFst existingEntries with
        | e :: _ => pure e.1
        | [] => throw PyErr.indexError
    else
      match pyMaxStr (st.files.map Prod.fst) with
      | some m => pure m
      | none => throw PyErr.valueError
  let _converted := convertInputVal newVal
  match st.files.lookup confFile with
  | none => throw PyErr.keyError
  | some doc =>
    pure { st with
           files := setDoc st.files confFile (dnew doc (newPath.map segString) (Value.str newVal)) }

/-- NetplanEditor.del_entry.  With a nonempty in_file: the isfile
check, dpath.util.get of the glob (KeyError when absent) and then
dpath.util.delete, returning the deletion count.  Without in_file the
source evaluates `self._match_1st_source_file(path)` — but no variable
named path is in scope in del_entry (its parameter is named glob), so
the call raises NameError before anything else happens. -/
def NetplanEditor.delEntry (st : NetplanEditor) (glob : List Seg) (inFile : String) :
    Except PyErr (Option Nat × NetplanEditor) := do
  let conf? ←
    if inFile ≠ "" then
      if inFile ∈ st.disk then pure (some inFile)
      else throw (PyErr.netplanExFileNotFound inFile)
    else
      (throw PyErr.nameError : Except PyErr (Option String))
  match conf? with
  | some conf =>
    match st.files.lookup conf with
    | none => throw PyErr.keyError
    | some doc =>
      match dgetGlob doc glob with
      | Except.error e => throw e
      | Except.ok _oldVal =>
        let r := ddel doc glob
        pure (some r.2, { st with files := setDoc st.files conf r.1 })
  | none => pure (none, st)

def c2Doc : Value := Value.map [("x", Value.int 1)]

def c2St : NetplanEditor :=
  { files := [("a.yaml", c2Doc)], filesOrig := [("a.yaml", c2Doc)], disk := ["a.yaml"] }

def c3DocA : Value := Value.map [("k", Value.int 1), ("m", Value.int 3)]

def c3DocB : Value := Value.map [("k", Value.int 2)]

def c3St : NetplanEditor :=
  { files := [("b.yaml", c3DocB), ("a.yaml", c3DocA)],
    filesOrig := [("b.yaml", c3DocB), ("a.yaml", c3DocA)],
    disk := ["b.yaml", "a.yaml"] }

def c10DocNull : Value := Value.map [("a", Value.null)]

def c10DocAbsent : Value := Value.map []

def c10StNull : NetplanEditor :=
  { files := [("n.yaml", c10DocNull)], filesOrig := [("n.yaml", c10DocNull)],
    disk := ["n.yaml"] }

def c10StAbsent : NetplanEditor :=
  { files := [("m.yaml", c10DocAbsent)], filesOrig := [("m.yaml", c10DocAbsent)],
    disk := ["m.yaml"] }

def c4DocA : Value := Value.map [("p", Value.map [("q", Value.int 1)])]

def c4DocB : Value := Value.map [("p", Value.map [])]

def c4St : NetplanEditor :=
  { files := [("a.yaml", c4DocA), ("b.yaml", c4DocB)],
    filesOrig := [("a.yaml", c4DocA), ("b.yaml", c4DocB)],
    disk := ["a.yaml", "b.yaml"] }

def c4StAfter : NetplanEditor :=
  { files := [("a.yaml", c4DocA), ("b.yaml", Value.map [("p", Value.map [("q", Value.str "2")])])],
    filesOrig := [("a.yaml", c4DocA), ("b.yaml", c4DocB)],
    disk := ["a.yaml", "b.yaml"] }

def c5Doc : Value :=
  Value.map [("network", Value.map [("ethernets", Value.map [("eth0", Value.map [])])])]

def c5St : NetplanEditor :=
  { files := [("a.yaml", c5Doc)], filesOrig := [("a.yaml", c5Doc)], disk := ["a.yaml"] }

def c5Path : List Seg :=
  [Seg.lit "network", Seg.lit "ethernets", Seg.lit "eth0", Seg.lit "mtu"]

def c5StAfter : NetplanEditor :=
  { files := [("a.yaml", Value.map [("network", Value.map [("ethernets",
      Value.map [("eth0", Value.map [("mtu", Value.str "1500")])])])])],
    filesOrig := [("a.yaml", c5Doc)], disk := ["a.yaml"] }

def c7DocA : Value :=
  Value.map [("network", Value.map
    [("ethernets", Value.map [("e1", Value.map [("mtu", Value.int 1)])]),
     ("bridges", Value.map [("b1", Value.map [("mtu", Value.int 2)])])])]

def c7DocB : Value :=
  Value.map [("network", Value.map
    [("ethernets", Value.map [("e2", Value.map [("mtu", Value.int 3)])])])]

def c7St : NetplanEditor :=
  { files := [("a.yaml", c7DocA), ("b.yaml", c7DocB)],
    filesOrig := [("a.yaml", c7DocA), ("b.yaml", c7DocB)],
    disk := ["a.yaml", "b.yaml"] }

def c8Doc : Value := Value.map [("k", Value.int 1)]

def c8St : NetplanEditor :=
  { files := [("a.yaml", c8Doc)], filesOrig := [("a.yaml", c8Doc)], disk := ["a.yaml"] }

def c6Doc : Value := Value.map [("k", Value.int 1)]

def c6St : NetplanEditor :=
  { files := [("a.yaml", c6Doc)], filesOrig := [("a.yaml", c6Doc)], disk := ["a.yaml"] }

def c9DocA : Value :=
  Value.map [("network", Value.map [("ethernets", Value.map [("eth1", Value.map [])])])]

def c9DocB : Value :=
  Value.map [("network", Value.map [("ethernets", Value.map [("eth0", Value.map [])])])]

def c9StA : NetplanEditor :=
  { files := [("10-a.yaml", c9DocA), ("20-b.yaml", c9DocB)],
    filesOrig := [("10-a.yaml", c9DocA), ("20-b.yaml", c9DocB)],
    disk := ["10-a.yaml", "20-b.yaml"] }

def c9PathA : List Seg := [Seg.lit "network", Seg.lit "ethernets", Seg.lit "eth9"]

def c9StB : NetplanEditor :=
  { files := [("10-a.yaml", Value.map []), ("20-b.yaml", Value.map [])],
    filesOrig := [("10-a.yaml", Value.map []), ("20-b.yaml", Value.map [])],
    disk := ["10-a.yaml", "20-b.yaml"] }

def c9PathB : List Seg := [Seg.lit "network", Seg.lit "x"]

theorem charListLt_irrefl : ∀ a : List Char, charListLt a a = false
  | [] => rfl
  | c :: cs => by
    simp only [charListLt]
    rw [if_neg (Nat.lt_irrefl _), if_neg (Nat.lt_irrefl _)]
    exact charListLt_irrefl cs

theorem charListLt_trans : ∀ a b c : List Char,
    charListLt a b = true → charListLt b c = true → charListLt a c = true
  | [], [], _, hab, _ => by simp [charListLt] at hab
  | [], _ :: _, [], _, hbc => by simp [charListLt] at hbc
  | [], _ :: _, _ :: _, _, _ => by simp [charListLt]
  | _ :: _, [], _, hab, _ => by simp [charListLt] at hab
  | _ :: _, _ :: _, [], _, hbc => by simp [charListLt] at hbc
  | x :: xs, y :: ys, z :: zs, hab, hbc => by
    simp only [charListLt] at hab hbc ⊢
    split_ifs at hab hbc ⊢ <;>
      first
        | rfl
        | exact absurd hab (by decide)
        | exact absurd hbc (by decide)
        | exact charListLt_trans xs ys zs hab hbc
        | (exfalso; omega)

theorem charListLt_false_trans : ∀ a b c : List Char,
    charListLt a b = false → charListLt b c = false → charListLt a c = false
  | [], [], c, _, hbc => hbc
  | [], _ :: _, _, hab, _ => by simp [charListLt] at hab
  | _ :: _, [], [], _, _ => rfl
  | _ :: _, [], _ :: _, _, hbc => by simp [charListLt] at hbc
  | _ :: _, _ :: _, [], _, _ => rfl
  | x :: xs, y :: ys, z :: zs, hab, hbc => by
    simp only [charListLt] at hab hbc ⊢
    split_ifs at hab hbc ⊢ <;>
      first
        | rfl
        | exact absurd hab (by decide)
        | exact absurd hbc (by decide)
        | exact charListLt_false_trans xs ys zs hab hbc
        | (exfalso; omega)

theorem charListLt_asymm (a b : List Char) (h : charListLt a b = true) :
    charListLt b a = false := by
  cases hx : charListLt b a
  · rfl
  · have := charListLt_trans a b a h hx
    rw [charListLt_irrefl] at this
    exact Bool.noConfusion this

theorem pyStrLt_irrefl (a : String) : pyStrLt a a = false :=
  charListLt_irrefl a.data

theorem pyStrLt_asymm (a b : String) (h : pyStrLt a b = true) : pyStrLt b a = false :=
  charListLt_asymm a.data b.data h

theorem pyStrLt_false_trans (a b c : String) (hab : pyStrLt a b = false)
    (hbc : pyStrLt b c = false) : pyStrLt a c = false :=
  charListLt_false_trans a.data b.data c.data hab hbc

theorem insDescFst_ne_nil {α : Type} (e : String × α) (l : List (String × α)) :
    insDescFst e l ≠ [] := by
  cases l with
  | nil => simp [insDescFst]
  | cons x xs =>
    simp only [insDescFst]
    split_ifs <;> simp

theorem pySortedDescFst_eq_nil {α : Type} (l : List (String × α))
    (h : pySortedDescFst l = []) : l = [] := by
  cases l with
  | nil => rfl
  | cons a l' =>
    exact absurd h (insDescFst_ne_nil a (pySortedDescFst l'))

theorem pySortedDescFst_head_max {α : Type} : ∀ (l : List (String × α)) (e : String × α)
    (r : List (String × α)), pySortedDescFst l = e :: r →
    e ∈ l ∧ ∀ x ∈ l, pyStrLt e.1 x.1 = false
  | [], e, r, h => by simp [pySortedDescFst] at h
  | a :: l', e, r, h => by
    have hfold : pySortedDescFst (a :: l') = insDescFst a (pySortedDescFst l') := rfl
    rw [hfold] at h
    cases hs : pySortedDescFst l' with
    | nil =>
      rw [hs] at h
      simp only [insDescFst] at h
      have hl' : l' = [] := pySortedDescFst_eq_nil l' hs
      injection h with h1 h2
      rw [← h1]
      subst hl'
      refine ⟨List.mem_singleton.mpr rfl, ?_⟩
      intro x hx
      rw [List.mem_singleton] at hx
      rw [hx]
      exact pyStrLt_irrefl a.1
    | cons s t =>
      rw [hs] at h
      obtain ⟨hsmem, hsmax⟩ := pySortedDescFst_head_max l' s t hs
      simp only [insDescFst] at h
      by_cases hlt : pyStrLt a.1 s.1 = true
      · rw [if_pos hlt] at h
        injection h with h1 h2
        rw [← h1]
        refine ⟨List.mem_cons_of_mem a hsmem, ?_⟩
        intro x hx
        rcases List.mem_cons.mp hx with hxa | hxl
        · subst hxa
          exact pyStrLt_asymm _ _ hlt
        · exact hsmax x hxl
      · have hlt' : pyStrLt a.1 s.1 = false := by
          cases hc : pyStrLt a.1 s.1
          · rfl
          · exact absurd hc hlt
        rw [hlt'] at h
        simp only [Bool.false_eq_true, if_false] at h
        injection h with h1 h2
        rw [← h1]
        refine ⟨List.mem_cons_self a l', ?_⟩
        intro x hx
        rcases List.mem_cons.mp hx with hxa | hxl
        · rw [hxa]; exact pyStrLt_irrefl a.1
        · exact pyStrLt_false_trans a.1 s.1 x.1 hlt' (hsmax x hxl)

theorem pyMaxStr_fold_spec : ∀ (xs : List String) (acc : String),
    (xs.foldl (fun a b => if pyStrLt a b then b else a) acc = acc ∨
      xs.foldl (fun a b => if pyStrLt a b then b else a) acc ∈ xs) ∧
    pyStrLt (xs.foldl (fun a b => if pyStrLt a b then b else a) acc) acc = false ∧
    ∀ y ∈ xs, pyStrLt (xs.foldl (fun a b => if pyStrLt a b then b else a) acc) y = false := by
  intro xs
  induction xs with
  | nil =>
    intro acc
    exact ⟨Or.inl rfl, pyStrLt_irrefl acc, by simp⟩
  | cons b bs ih =>
    intro acc
    simp only [List.foldl_cons]
    by_cases hb : pyStrLt acc b = true
    · rw [if_pos hb]
      obtain ⟨hmem, hacc, hall⟩ := ih b
      refine ⟨?_, ?_, ?_⟩
      · rcases hmem with h | h
        · rw [h]; exact Or.inr (List.mem_cons_self b bs)
        · exact Or.inr (List.mem_cons_of_mem b h)
      · have hba : pyStrLt b acc = false := pyStrLt_asymm acc b hb
        exact pyStrLt_false_trans _ b acc hacc hba
      · intro y hy
        rcases List.mem_cons.mp hy with hyb | hybs
        · subst hyb; exact hacc
        · exact hall y hybs
    · have hb' : pyStrLt acc b = false := by
        cases hc : pyStrLt acc b
        · rfl
        · exact absurd hc hb
      rw [hb']
      simp only [Bool.false_eq_true, if_false]
      obtain ⟨hmem, hacc, hall⟩ := ih acc
      refine ⟨?_, hacc, ?_⟩
      · rcases hmem with h | h
        · exact Or.inl h
        · exact Or.inr (List.mem_cons_of_mem b h)
      · intro y hy
        rcases List.mem_cons.mp hy with hyb | hybs
        · rw [hyb]
          exact pyStrLt_false_trans _ acc b hacc hb'
        · exact hall y hybs

theorem pyMaxStr_spec (l : List String) (m : String) (h : pyMaxStr l = some m) :
    m ∈ l ∧ ∀ y ∈ l, pyStrLt m y = false := by
  cases l with
  | nil => simp [pyMaxStr] at h
  | cons x xs =>
    simp only [pyMaxStr, Option.some.injEq] at h
    obtain ⟨hmem, hacc, hall⟩ := pyMaxStr_fold_spec xs x
    constructor
    · rw [← h]
      rcases hmem with h2 | h2
      · rw [h2]; exact List.mem_cons_self x xs
      · exact List.mem_cons_of_mem x h2
    · intro y hy
      rcases List.mem_cons.mp hy with hyx | hyxs
      · subst hyx; rw [← h]; exact hacc
      · rw [← h]; exact hall y hyxs

theorem lookup_map_if (es : List (String × Value)) (k : String) (f : Value → Value) :
    (es.map (fun e => if e.1 == k then (e.1, f e.2) else e)).lookup k =
      (es.lookup k).map f := by
  induction es with
  | nil => simp
  | cons e es ih =>
    obtain ⟨k0, c0⟩ := e
    simp only [List.map_cons]
    by_cases h : k0 = k
    · subst h
      rw [show (if ((k0, c0).1 == k0) = true then ((k0, c0).1, f (k0, c0).2) else (k0, c0)) =
            (k0, f c0) from by simp]
      rw [List.lookup_cons, List.lookup_cons]
      simp
    · rw [show (if ((k0, c0).1 == k) = true then ((k0, c0).1, f (k0, c0).2) else (k0, c0)) =
            (k0, c0) from by simp [h]]
      rw [List.lookup_cons, List.lookup_cons]
      have hkk : (k == k0) = false := by
        simp
        exact fun hc => h hc.symm
      simp only [hkk]
      exact ih

theorem lookup_map_if_ne (es : List (String × Value)) (k j : String) (f : Value → Value)
    (hne : j ≠ k) :
    (es.map (fun e => if e.1 == k then (e.1, f e.2) else e)).lookup j = es.lookup j := by
  induction es with
  | nil => simp
  | cons e es ih =>
    obtain ⟨k0, c0⟩ := e
    simp only [List.map_cons]
    by_cases h : k0 = k
    · subst h
      rw [show (if ((k0, c0).1 == k0) = true then ((k0, c0).1, f (k0, c0).2) else (k0, c0)) =
            (k0, f c0) from by simp]
      rw [List.lookup_cons, List.lookup_cons]
      have hj : (j == k0) = false := by
        simp
        exact hne
      simp only [hj]
      exact ih
    · rw [show (if ((k0, c0).1 == k) = true then ((k0, c0).1, f (k0, c0).2) else (k0, c0)) =
            (k0, c0) from by simp [h]]
      rw [List.lookup_cons, List.lookup_cons]
      cases hjk : (j == k0)
      · exact ih
      · rfl

theorem dgetOpt_dset : ∀ (p : List String) (doc v : Value), p ≠ [] →
    (dgetOpt doc p).isSome → dgetOpt (dset doc p v) p = some v
  | [], _, _, hp, _ => absurd rfl hp
  | [k], Value.map es, v, _, hsome => by
    simp only [dgetOpt] at hsome
    cases hlk : es.lookup k with
    | none => rw [hlk] at hsome; simp [dgetOpt] at hsome
    | some child =>
      simp only [dset, dgetOpt]
      rw [show (fun (e : String × Value) => if e.1 == k then (e.1, v) else e) =
            (fun (e : String × Value) => if e.1 == k then (e.1, (fun _ => v) e.2) else e) from rfl]
      rw [lookup_map_if es k (fun _ => v), hlk]
      rfl
  | [k], Value.seq xs, v, _, hsome => by
    simp only [dgetOpt] at hsome
    cases hn : k.toNat? with
    | none => simp only [hn] at hsome; simp at hsome
    | some i =>
      simp only [hn] at hsome
      cases hx : xs[i]? with
      | none => rw [hx] at hsome; simp at hsome
      | some c =>
        have hi : i < xs.length := by
          by_contra hc
          rw [List.getElem?_eq_none (Nat.le_of_not_lt hc)] at hx
          exact Option.noConfusion hx
        simp only [dset, hn, dgetOpt]
        rw [List.getElem?_set_eq_of_lt v hi]
  | [k], Value.str s, v, _, hsome => by simp [dgetOpt] at hsome
  | [k], Value.int n, v, _, hsome => by simp [dgetOpt] at hsome
  | [k], Value.bool b, v, _, hsome => by simp [dgetOpt] at hsome
  | [k], Value.null, v, _, hsome => by simp [dgetOpt] at hsome
  | k :: r :: rs, Value.map es, v, _, hsome => by
    simp only [dgetOpt] at hsome
    cases hlk : es.lookup k with
    | none => rw [hlk] at hsome; simp at hsome
    | some child =>
      rw [hlk] at hsome
      simp only [dset, dgetOpt]
      rw [lookup_map_if es k (fun c => dset c (r :: rs) v), hlk]
      simp only [Option.map_some']
      exact dgetOpt_dset (r :: rs) child v (by simp) hsome
  | k :: r :: rs, Value.seq xs, v, _, hsome => by
    simp only [dgetOpt] at hsome
    cases hn : k.toNat? with
    | none => simp only [hn] at hsome; simp at hsome
    | some i =>
      simp only [hn] at hsome
      cases hx : xs[i]? with
      | none => rw [hx] at hsome; simp at hsome
      | some c =>
        rw [hx] at hsome
        have hi : i < xs.length := by
          by_contra hc
          rw [List.getElem?_eq_none (Nat.le_of_not_lt hc)] at hx
          exact Option.noConfusion hx
        simp only [dset, hn, hx, dgetOpt]
        rw [List.getElem?_set_eq_of_lt _ hi]
        exact dgetOpt_dset (r :: rs) c v (by simp) hsome
  | k :: r :: rs, Value.str s, v, _, hsome => by simp [dgetOpt] at hsome
  | k :: r :: rs, Value.int n, v, _, hsome => by simp [dgetOpt] at hsome
  | k :: r :: rs, Value.bool b, v, _, hsome => by simp [dgetOpt] at hsome
  | k :: r :: rs, Value.null, v, _, hsome => by simp [dgetOpt] at hsome

theorem findSome?_eq_some_split {α β : Type} (f : α → Option β) :
    ∀ (l : List α) (b : β), l.findSome? f = some b →
      ∃ pre a post, l = pre ++ a :: post ∧ f a = some b ∧ ∀ x ∈ pre, f x = none
  | [], b, h => by simp at h
  | a :: l, b, h => by
    rw [List.findSome?_cons] at h
    cases hfa : f a with
    | some b' =>
      rw [hfa] at h
      refine ⟨[], a, l, by simp, ?_, by simp⟩
      rw [hfa]
      exact h
    | none =>
      rw [hfa] at h
      obtain ⟨pre, x, post, hl, hfx, hpre⟩ := findSome?_eq_some_split f l b h
      refine ⟨a :: pre, x, post, by rw [hl]; rfl, hfx, ?_⟩
      intro y hy
      rcases List.mem_cons.mp hy with hya | hyp
      · rw [hya]; exact hfa
      · exact hpre y hyp

theorem findSome?_all_none {α β : Type} (f : α → Option β) :
    ∀ (l : List α), (∀ x ∈ l, f x = none) → l.findSome? f = none
  | [], _ => rfl
  | a :: l, h => by
    rw [List.findSome?_cons, h a (List.mem_cons_self a l)]
    exact findSome?_all_none f l (fun x hx => h x (List.mem_cons_of_mem a hx))

theorem findSome?_append_all_none {α β : Type} (f : α → Option β) (pre l : List α)
    (h : ∀ x ∈ pre, f x = none) : (pre ++ l).findSome? f = l.findSome? f := by
  induction pre with
  | nil => rfl
  | cons a pre ih =>
    rw [List.cons_append, List.findSome?_cons, h a (List.mem_cons_self a pre)]
    exact ih (fun x hx => h x (List.mem_cons_of_mem a hx))

theorem exceptBind_ok {e a b : Type} (x : a) (f : a → Except e b) :
    (Except.ok x >>= f : Except e b) = f x := rfl

theorem exceptPureBind {e a b : Type} (x : a) (f : a → Except e b) :
    ((pure x : Except e a) >>= f) = f x := rfl

theorem lookup_append_keys_ne (pre rest : List (String × Value)) (c : String)
    (h : ∀ e ∈ pre, e.1 ≠ c) : (pre ++ rest).lookup c = rest.lookup c := by
  induction pre with
  | nil => rfl
  | cons e pre ih =>
    rw [List.cons_append, List.lookup_cons]
    have : (c == e.1) = false := by
      simp
      exact fun hc => (h e (List.mem_cons_self e pre)) hc.symm
    simp only [this]
    exact ih (fun x hx => h x (List.mem_cons_of_mem e hx))

/-- C6: for every wildcard-free path existing in some loaded file and
every raw input string, set followed by get returns the coerced value
of the input. -/
theorem c6_set_then_get_roundtrip (st : NetplanEditor) (p : List String) (v : String)
    (hp : p ≠ []) (hnd : (st.files.map Prod.fst).Nodup) (c : String)
    (hc : st.matchFirstSourceFile p = some c) :
    ∃ st2 : NetplanEditor, st.setVal p v "" = Except.ok (true, st2) ∧
      st2.getVal p = convertInputVal v := by
  obtain ⟨pre, e, post, hl, hfe, hpre⟩ :=
    findSome?_eq_some_split _ st.files c hc
  obtain ⟨ck, doc⟩ := e
  have hck : ck = c := by
    by_cases hs : (dgetOpt doc p).isSome
    · simpa [hs] using hfe
    · simp [hs] at hfe
  subst hck
  have hdoc : (dgetOpt doc p).isSome := by
    by_cases hs : (dgetOpt doc p).isSome
    · exact hs
    · simp [hs] at hfe
  have hprenone : ∀ e ∈ pre, dgetOpt e.2 p = none := by
    intro e he
    have := hpre e he
    by_cases hs : (dgetOpt e.2 p).isSome
    · simp [hs] at this
    · simpa using hs
  have hkeys : ∀ e ∈ pre, e.1 ≠ ck := by
    have hnd2 := hnd
    rw [hl, List.map_append, List.map_cons] at hnd2
    rw [List.nodup_append] at hnd2
    intro e he hekc
    exact hnd2.2.2 (List.mem_map_of_mem Prod.fst he) (by rw [hekc]; exact List.mem_cons_self _ _)
  have hlookup : st.files.lookup ck = some doc := by
    rw [hl, lookup_append_keys_ne pre _ ck hkeys, List.lookup_cons]
    simp
  obtain ⟨w, hw⟩ := Option.isSome_iff_exists.mp hdoc
  refine ⟨{ st with files := setDoc st.files ck (dset doc p (convertInputVal v)) }, ?_, ?_⟩
  · simp only [NetplanEditor.setVal, ne_eq, not_true_eq_false, if_false, reduceIte]
    rw [hc]
    simp only [exceptPureBind, exceptBind_ok, hlookup, hw]
    rfl
  · simp only [NetplanEditor.getVal]
    have hsd : setDoc st.files ck (dset doc p (convertInputVal v)) =
        pre ++ (ck, dset doc p (convertInputVal v)) :: (setDoc post ck (dset doc p (convertInputVal v))) := by
      rw [hl]
      simp only [setDoc, List.map_append, List.map_cons]
      congr 1
      · have hmapid : List.map
            (fun (e : String × Value) => if e.1 == ck then (e.1, dset doc p (convertInputVal v)) else e) pre =
            List.map id pre := by
          apply List.map_congr_left
          intro e he
          rw [if_neg (by simpa using hkeys e he)]
          rfl
        rw [hmapid, List.map_id]
      · congr 1
        rw [if_pos (by simp)]
    rw [hsd, findSome?_append_all_none _ pre _ hprenone, List.findSome?_cons,
      dgetOpt_dset p doc (convertInputVal v) hp hdoc]

theorem exceptBind_err {e a b : Type} (x : e) (f : a → Except e b) :
    ((throw x : Except e a) >>= f) = Except.error x := rfl

mutual

theorem Value.beq_refl : ∀ v : Value, Value.beq v v = true
  | .str a => by simp [Value.beq]
  | .int a => by simp [Value.beq]
  | .bool a => by simp [Value.beq]
  | .null => by simp [Value.beq]
  | .map a => by simp only [Value.beq]; exact Value.beqFields_refl a
  | .seq a => by simp only [Value.beq]; exact Value.beqElems_refl a

theorem Value.beqFields_refl : ∀ xs : List (String × Value), Value.beqFields xs xs = true
  | [] => by simp [Value.beqFields]
  | (k, v) :: xs => by
    simp only [Value.beqFields]
    rw [Value.beq_refl v, Value.beqFields_refl xs]
    simp

theorem Value.beqElems_refl : ∀ xs : List Value, Value.beqElems xs xs = true
  | [] => by simp [Value.beqElems]
  | v :: xs => by
    simp only [Value.beqElems]
    rw [Value.beq_refl v, Value.beqElems_refl xs]
    simp

end

theorem optValBeq_refl : ∀ x : Option Value, optValBeq x x = true
  | none => rfl
  | some v => Value.beq_refl v

/-- C1 (code bug): del_entry without a target file always raises NameError,
because the source refers to an undefined variable `path` instead of its
parameter `glob`; it can never remove anything nor raise the
path-not-found error the claim describes. -/
theorem c1_delete_without_target_raises_name_error (st : NetplanEditor) (glob : List Seg) :
    st.delEntry glob "" = Except.error PyErr.nameError := rfl

/-- C2 counterexample: with no target file and a path absent from every
loaded Document, set_val returns False without raising any error, so the
claimed PathNotFoundError does not happen in the first_owning_file case. -/
theorem c2_counterexample :
    c2St.setVal ["y"] "5" "" = Except.ok (false, c2St) := rfl

/-- C2 amended: with a target file that exists on disk and is loaded,
set on a path absent from that Document fails with the dpath KeyError
(the PathNotFoundError of the spec); with no target file and the path
absent from every Document, set returns False and leaves the state
untouched.  In both cases nothing is created. -/
theorem c2_set_missing_path_amended (st : NetplanEditor) (p : List String) (v : String)
    (f : String) (doc : Value) :
    (f ≠ "" → f ∈ st.disk → st.files.lookup f = some doc → dgetOpt doc p = none →
      st.setVal p v f = Except.error PyErr.keyError) ∧
    ((∀ e ∈ st.files, dgetOpt e.2 p = none) → st.setVal p v "" = Except.ok (false, st)) := by
  constructor
  · intro hf hdisk hlookup hget
    simp only [NetplanEditor.setVal]
    rw [if_pos hf, if_pos hdisk]
    simp only [exceptPureBind, hlookup, hget]
    rfl
  · intro h
    have hmf : st.matchFirstSourceFile p = none := by
      apply findSome?_all_none
      intro e he
      rw [h e he]
      rfl
    simp only [NetplanEditor.setVal, ne_eq, not_true_eq_false, if_false, reduceIte]
    rw [hmf]
    rfl

/-- C2 witness: a concrete overlay exercising both halves of the
amended statement. -/
theorem c2_witness :
    c2St.setVal ["y"] "1" "a.yaml" = Except.error PyErr.keyError ∧
    c2St.setVal ["y"] "1" "" = Except.ok (false, c2St) := by
  constructor
  · exact (c2_set_missing_path_amended c2St ["y"] "1" "a.yaml" c2Doc).1
      (by decide) (by decide) rfl rfl
  · exact (c2_set_missing_path_amended c2St ["y"] "1" "a.yaml" c2Doc).2
      (fun e he => by rw [List.mem_singleton.mp he]; rfl)

/-- C3 counterexample: with discovery order [b.yaml, a.yaml] (os.listdir
gives no particular order and the constructor keeps it), the key k is
defined in both files; a.yaml comes first in ascending lexicographic
order yet get_val and _match_1st_source_file answer from b.yaml, so
lookups follow insertion order, not ascending identity order. -/
theorem c3_counterexample :
    mkEditor [("b.yaml", c3DocB), ("a.yaml", c3DocA)] ["b.yaml", "a.yaml"] =
      Except.ok c3St ∧
    pyStrLt "a.yaml" "b.yaml" = true ∧
    dgetOpt c3DocA ["k"] = some (Value.int 1) ∧
    c3St.getVal ["k"] = Value.int 2 ∧
    c3St.matchFirstSourceFile ["k"] = some "b.yaml" ∧
    Value.int 2 ≠ Value.int 1 :=
  ⟨rfl, by decide, rfl, rfl, rfl, by simp⟩

/-- C3 amended: get_val and _match_1st_source_file consult the loaded
Documents in storage (insertion/discovery) order and answer from the
first Document containing the path; lexicographic order plays no role. -/
theorem c3_first_match_insertion_order (st : NetplanEditor) (p : List String)
    (pre : List (String × Value)) (c : String) (doc : Value)
    (post : List (String × Value)) (w : Value)
    (hl : st.files = pre ++ (c, doc) :: post)
    (hpre : ∀ e ∈ pre, dgetOpt e.2 p = none)
    (hw : dgetOpt doc p = some w) :
    st.matchFirstSourceFile p = some c ∧ st.getVal p = w := by
  constructor
  · unfold NetplanEditor.matchFirstSourceFile
    rw [hl]
    rw [findSome?_append_all_none _ pre _ (fun e he => by rw [hpre e he]; rfl),
      List.findSome?_cons]
    simp [hw]
  · unfold NetplanEditor.getVal
    rw [hl]
    rw [findSome?_append_all_none _ pre _ (fun e he => hpre e he), List.findSome?_cons]
    simp only [hw]

/-- C3 witness: a concrete instance of the insertion-order lookup. -/
theorem c3_witness :
    c3St.matchFirstSourceFile ["m"] = some "a.yaml" ∧ c3St.getVal ["m"] = Value.int 3 :=
  c3_first_match_insertion_order c3St ["m"] [("b.yaml", c3DocB)] "a.yaml" c3DocA [] (Value.int 3)
    rfl (fun e he => by rw [List.mem_singleton.mp he]; rfl) rfl

/-- C10 counterexample: get_val answers the same None for a path stored
with a null value and for a path absent from every Document, so there
is no found/not-found signal distinct from values. -/
theorem c10_counterexample :
    dgetOpt c10DocNull ["a"] = some Value.null ∧
    dgetOpt c10DocAbsent ["a"] = none ∧
    c10StNull.getVal ["a"] = Value.null ∧
    c10StAbsent.getVal ["a"] = Value.null ∧
    c10StNull.getVal ["a"] = c10StAbsent.getVal ["a"] :=
  ⟨rfl, rfl, rfl, rfl, rfl⟩

/-- C10 amended: get_val returns None (the null value) when the path is
absent from every loaded Document, and equally returns the stored None
when the first owning Document holds a null there: absence and a stored
null are not distinguishable by the caller. -/
theorem c10_get_not_found_is_null (st : NetplanEditor) (p : List String) :
    ((∀ e ∈ st.files, dgetOpt e.2 p = none) → st.getVal p = Value.null) ∧
    (∀ (pre : List (String × Value)) (c : String) (doc : Value)
        (post : List (String × Value)), st.files = pre ++ (c, doc) :: post →
      (∀ e ∈ pre, dgetOpt e.2 p = none) → dgetOpt doc p = some Value.null →
      st.getVal p = Value.null) := by
  constructor
  · intro h
    unfold NetplanEditor.getVal
    rw [findSome?_all_none _ _ h]
  · intro pre c doc post hl hpre hnull
    unfold NetplanEditor.getVal
    rw [hl, findSome?_append_all_none _ pre _ (fun e he => hpre e he), List.findSome?_cons]
    simp only [hnull]

/-- C10 witness: both halves of the amended statement at concrete
overlays. -/
theorem c10_witness :
    c10StAbsent.getVal ["a"] = Value.null ∧ c10StNull.getVal ["a"] = Value.null := by
  constructor
  · exact (c10_get_not_found_is_null c10StAbsent ["a"]).1
      (fun e he => by rw [List.mem_singleton.mp he]; rfl)
  · exact (c10_get_not_found_is_null c10StNull ["a"]).2 [] "n.yaml" c10DocNull [] rfl
      (by simp) rfl

/-- C4 counterexample: q already exists under p in a.yaml (the duplicate
scan itself reports it), yet new_entry with target file b.yaml succeeds
and mutates b.yaml — the already-exists check is skipped whenever a
target file is supplied. -/
theorem c4_counterexample :
    findDup "q" (c4St.searchRaw [Seg.lit "p"]) = Except.ok (some "a.yaml") ∧
    c4St.newEntry [Seg.lit "p", Seg.lit "q"] "2" "b.yaml" = Except.ok c4StAfter :=
  ⟨rfl, rfl⟩

/-- C4 amended: only when no target file is supplied does new_entry run
the global duplicate scan; if some parent-path match anywhere in the
overlay already contains the element name, it fails with the
already-exists error (and, the operation being pure up to that raise,
no Document is modified). -/
theorem c4_duplicate_guard_without_target (st : NetplanEditor) (newPath : List Seg)
    (v : String) (f : String)
    (hdup : findDup (elementNameOf newPath) (st.searchRaw newPath.dropLast) =
      Except.ok (some f)) :
    st.newEntry newPath v "" = Except.error (PyErr.netplanExAlreadyExists newPath f) := by
  unfold NetplanEditor.newEntry
  simp only [ne_eq, not_true_eq_false, if_false, reduceIte]
  cases hE : st.searchRaw newPath.dropLast with
  | nil =>
    rw [hE] at hdup
    simp [findDup] at hdup
  | cons x xs =>
    rw [hE] at hdup
    simp only [List.isEmpty_cons, Bool.not_false, if_true, hdup]
    rfl

/-- C4 witness: the duplicate guard firing on the concrete overlay when
no target file is given. -/
theorem c4_witness :
    c4St.newEntry [Seg.lit "p", Seg.lit "q"] "2" "" =
      Except.error (PyErr.netplanExAlreadyExists [Seg.lit "p", Seg.lit "q"] "a.yaml") :=
  c4_duplicate_guard_without_target c4St [Seg.lit "p", Seg.lit "q"] "2" "a.yaml" rfl

/-- C5 (code bug): new_entry computes the coerced value but passes the
raw new_val to dpath.util.new, so adding mtu=1500 stores the string
"1500" even though the coercion boundary yields the integer 1500; the
add path does not apply Value Coercion as the claim states. -/
theorem c5_new_entry_stores_raw_string :
    c5St.newEntry c5Path "1500" "" = Except.ok c5StAfter ∧
    c5StAfter.getVal ["network", "ethernets", "eth0", "mtu"] = Value.str "1500" ∧
    convertInputVal "1500" = Value.int 1500 ∧
    Value.str "1500" ≠ Value.int 1500 :=
  ⟨rfl, rfl, rfl, by simp⟩

/-- C7 counterexample: with matches in two files and two sections, the
filenames of the results come out as a, b, a — the a.yaml bridges match
follows the b.yaml ethernets match, so overlay file order is not the
outermost grouping (the section loop is outermost in the source). -/
theorem c7_counterexample :
    c7St.searchParamsAllInterfaces [Seg.lit "mtu"] =
      [("a.yaml", ["network", "ethernets", "e1", "mtu"], Value.int 1),
       ("b.yaml", ["network", "ethernets", "e2", "mtu"], Value.int 3),
       ("a.yaml", ["network", "bridges", "b1", "mtu"], Value.int 2)] ∧
    (c7St.searchParamsAllInterfaces [Seg.lit "mtu"]).map (fun m => m.1) =
      ["a.yaml", "b.yaml", "a.yaml"] ∧
    "a.yaml" ≠ "b.yaml" :=
  ⟨rfl, rfl, by decide⟩

/-- C7 amended: search_params_all_interfaces is the concatenation of
the three per-section overlay searches in order ethernets, bridges,
vlans — section order is the outermost grouping, overlay file (storage)
order comes next inside each section, then each container's natural
match order. -/
theorem c7_section_order_outermost (st : NetplanEditor) (keyGlob : List Seg) :
    st.searchParamsAllInterfaces keyGlob =
      st.searchRaw ([Seg.lit "network", Seg.lit "ethernets", Seg.star] ++ keyGlob) ++
      (st.searchRaw ([Seg.lit "network", Seg.lit "bridges", Seg.star] ++ keyGlob) ++
       st.searchRaw ([Seg.lit "network", Seg.lit "vlans", Seg.star] ++ keyGlob)) ∧
    ∀ glob : List Seg, st.searchRaw glob =
      st.files.flatMap (fun e => (dsearch e.2 glob).map (fun m => (e.1, m.1, m.2))) := by
  constructor
  · simp [NetplanEditor.searchParamsAllInterfaces]
  · intro glob
    rfl

/-- C8: a Document whose tree equals its baseline reports changed() as
false and is skipped by write(); after write() returns, every
Document's baseline equals its current tree, so changed() is false
everywhere. -/
theorem c8_unchanged_not_written_and_reset (st : NetplanEditor) (conf : String)
    (h : st.files.lookup conf = st.filesOrig.lookup conf) :
    st.changed conf = false ∧ conf ∉ st.write.1 ∧
      ∀ c : String, st.write.2.changed c = false := by
  have hch : st.changed conf = false := by
    unfold NetplanEditor.changed
    rw [h, optValBeq_refl]
    rfl
  refine ⟨hch, ?_, ?_⟩
  · intro hmem
    unfold NetplanEditor.write at hmem
    have := (List.mem_filter.mp hmem).2
    rw [hch] at this
    exact Bool.noConfusion this
  · intro c
    unfold NetplanEditor.write NetplanEditor.changed
    rw [optValBeq_refl]
    rfl

/-- C8 witness: an untouched single-file overlay is not written and
stays unchanged after write(). -/
theorem c8_witness :
    c8St.changed "a.yaml" = false ∧ "a.yaml" ∉ c8St.write.1 ∧
      ∀ c : String, c8St.write.2.changed c = false :=
  c8_unchanged_not_written_and_reset c8St "a.yaml" rfl

/-- C6 witness: setting k to "2" and reading it back yields the coerced
integer 2. -/
theorem c6_witness :
    ∃ st2 : NetplanEditor, c6St.setVal ["k"] "2" "" = Except.ok (true, st2) ∧
      st2.getVal ["k"] = convertInputVal "2" :=
  c6_set_then_get_roundtrip c6St ["k"] "2" (by simp) (by decide) "a.yaml" rfl

theorem lookup_isSome_of_mem_keys : ∀ (files : List (String × Value)) (k : String),
    k ∈ files.map Prod.fst → ∃ doc, files.lookup k = some doc
  | [], k, h => by simp at h
  | (k0, c0) :: rest, k, h => by
    by_cases hk : k = k0
    · subst hk
      exact ⟨c0, by simp [List.lookup_cons]⟩
    · have hk2 : (k == k0) = false := by simp [hk]
      rw [List.map_cons, List.mem_cons] at h
      rcases h with h | h
      · exact absurd h hk
      · obtain ⟨doc, hdoc⟩ := lookup_isSome_of_mem_keys rest k h
        exact ⟨doc, by rw [List.lookup_cons]; simp only [hk2]; exact hdoc⟩

theorem searchRaw_fst_mem (st : NetplanEditor) (g : List Seg) (m : String × List String × Value)
    (hm : m ∈ st.searchRaw g) : m.1 ∈ st.files.map Prod.fst := by
  unfold NetplanEditor.searchRaw at hm
  rw [List.mem_flatMap] at hm
  obtain ⟨e, he, hme⟩ := hm
  rw [List.mem_map] at hme
  obtain ⟨x, _, hxm⟩ := hme
  rw [← hxm]
  exact List.mem_map_of_mem Prod.fst he

/-- C9: with no target file and no duplicate, new_entry writes into the
file of the parent-path match with the lexicographically greatest
filename when the parent path matches anywhere, and otherwise into the
loaded file with the lexicographically greatest filename. -/
theorem c9_new_entry_file_selection (st : NetplanEditor) (newPath : List Seg) (v : String)
    (hdup : findDup (elementNameOf newPath) (st.searchRaw newPath.dropLast) =
      Except.ok none) :
    (st.searchRaw newPath.dropLast ≠ [] →
      ∃ conf doc,
        conf ∈ (st.searchRaw newPath.dropLast).map (fun m => m.1) ∧
        (∀ m ∈ st.searchRaw newPath.dropLast, pyStrLt conf m.1 = false) ∧
        st.files.lookup conf = some doc ∧
        st.newEntry newPath v "" = Except.ok
          { st with files := setDoc st.files conf (dnew doc (newPath.map segString) (Value.str v)) }) ∧
    (st.searchRaw newPath.dropLast = [] →
      ∀ m : String, pyMaxStr (st.files.map Prod.fst) = some m →
        ∃ doc, m ∈ st.files.map Prod.fst ∧
          (∀ k ∈ st.files.map Prod.fst, pyStrLt m k = false) ∧
          st.files.lookup m = some doc ∧
          st.newEntry newPath v "" = Except.ok
            { st with files := setDoc st.files m (dnew doc (newPath.map segString) (Value.str v)) }) := by
  constructor
  · intro hne
    cases hq : st.searchRaw newPath.dropLast with
    | nil => exact absurd hq hne
    | cons x xs =>
      have hdup' := hdup
      rw [hq] at hdup'
      cases hs : pySortedDescFst (x :: xs) with
      | nil =>
        have := pySortedDescFst_eq_nil (x :: xs) hs
        exact absurd this (by simp)
      | cons e r =>
        obtain ⟨hmem, hmax⟩ := pySortedDescFst_head_max (x :: xs) e r hs
        obtain ⟨doc, hdoc⟩ := lookup_isSome_of_mem_keys st.files e.1
          (searchRaw_fst_mem st newPath.dropLast e (by rw [hq]; exact hmem))
        refine ⟨e.1, doc, ?_, ?_, hdoc, ?_⟩
        · exact List.mem_map_of_mem (fun m => m.1) hmem
        · intro m hm
          exact hmax m hm
        · unfold NetplanEditor.newEntry
          simp only [ne_eq, not_true_eq_false, if_false, reduceIte]
          rw [hq, hs]
          simp only [List.isEmpty_cons, Bool.not_false, if_true, hdup']
          rw [exceptPureBind, hdoc]
          rfl
  · intro hq m hmax
    obtain ⟨hmem, hge⟩ := pyMaxStr_spec (st.files.map Prod.fst) m hmax
    obtain ⟨doc, hdoc⟩ := lookup_isSome_of_mem_keys st.files m hmem
    refine ⟨doc, hmem, hge, hdoc, ?_⟩
    unfold NetplanEditor.newEntry
    simp only [ne_eq, not_true_eq_false, if_false, reduceIte]
    rw [hq, hmax]
    simp only [List.isEmpty_nil, Bool.not_true, Bool.false_eq_true, if_false, reduceIte]
    rw [exceptPureBind, hdoc]
    rfl

/-- C9 witness: both selection rules at concrete overlays — the parent
path exists in both files and 20-b.yaml (greatest name) is picked; with
no parent match anywhere, the greatest loaded filename is picked. -/
theorem c9_witness :
    (∃ conf doc,
      conf ∈ (c9StA.searchRaw c9PathA.dropLast).map (fun m => m.1) ∧
      (∀ m ∈ c9StA.searchRaw c9PathA.dropLast, pyStrLt conf m.1 = false) ∧
      c9StA.files.lookup conf = some doc ∧
      c9StA.newEntry c9PathA "x" "" = Except.ok
        { c9StA with files := setDoc c9StA.files conf (dnew doc (c9PathA.map segString) (Value.str "x")) }) ∧
    (∃ doc, "20-b.yaml" ∈ c9StB.files.map Prod.fst ∧
      (∀ k ∈ c9StB.files.map Prod.fst, pyStrLt "20-b.yaml" k = false) ∧
      c9StB.files.lookup "20-b.yaml" = some doc ∧
      c9StB.newEntry c9PathB "y" "" = Except.ok
        { c9StB with files := setDoc c9StB.files "20-b.yaml" (dnew doc (c9PathB.map segString) (Value.str "y")) }) :=
  ⟨(c9_new_entry_file_selection c9StA c9PathA "x" rfl).1 (fun h => List.noConfusion h),
   (c9_new_entry_file_selection c9StB c9PathB "y" rfl).2 rfl "20-b.yaml" rfl⟩
